import Mathlib

/-!
# Verification of the `module-config` environment-variable accessor

A shallow embedding of `src/lib/module-config.js`: a single class
`EnvironmentVariables` that reads the process-wide environment-variable
table under a namespaced-key convention and exposes typed getters with
default-value fallback, plus a strict `getOrThrow` variant.

Modelling conventions:
  * The process-wide variable table (`process.env`) is an association list
    from string keys to string values; `process.env[k]` is the first
    binding for `k` (`none` models JavaScript `undefined`).
  * A JavaScript value that may be `undefined` is an `Option`; an optional
    function argument whose JS default kicks in when the caller passes
    `undefined` (or omits the argument) is an `Option` unwrapped with the
    source's default.
  * JavaScript functions may throw, so every public method returns
    `Except String α`; `try`/`catch` in the source becomes a `match` on the
    `Except` of the guarded body.
  * Strings are Lean `String`s; `toUpperCase`/`toLowerCase` are modelled
    character by character with `Char.toUpper`/`Char.toLower` (JS simple
    case mapping; they agree on ASCII, the domain of configuration keys).
  * `parseFloat` and `JSON.parse` are modelled after their ECMAScript
    definitions with exact rational arithmetic in place of binary64
    rounding (no claim here depends on rounding).
-/

namespace ModuleConfig

/-- The process-wide variable table (`process.env`): a finite map from
string keys to string values, modelled as an association list. -/
structure EnvTable where
  vars : List (String × String)
deriving DecidableEq

/-- `process.env[k]`: the value bound to `k`, or `none` (JS `undefined`)
when no binding exists. -/
def EnvTable.lookup (t : EnvTable) (k : String) : Option String :=
  (t.vars.find? (fun p => p.1 == k)).map Prod.snd

/-- The accessor object: stateless apart from its fixed environment name
(`this.env`, e.g. `"development"` or `"production"`). -/
structure EnvironmentVariables where
  env : String
deriving DecidableEq

/-- `String.prototype.toUpperCase()`, character by character (JS simple
case mapping; `Char.toUpper` agrees with it on the ASCII configuration
keys in play). -/
def jsToUpper (s : String) : String :=
  String.mk (s.data.map Char.toUpper)

/-- `String.prototype.toLowerCase()`, character by character. -/
def jsToLower (s : String) : String :=
  String.mk (s.data.map Char.toLower)

/-- The namespaced lookup key computed at the top of `get`:
`` `${this.env.toUpperCase()}_${key.toUpperCase()}` ``. -/
def namespacedKey (self : EnvironmentVariables) (key : String) : String :=
  jsToUpper self.env ++ "_" ++ jsToUpper key

/-- `get(key, defaultValue = undefined)`:
```js
const envKey = `${this.env.toUpperCase()}_${key.toUpperCase()}`
try { return process.env[envKey] || defaultValue }
catch (err) { console.error(...); return defaultValue }
```
`x || defaultValue` yields `defaultValue` whenever `x` is falsy, i.e. when
the variable is unset (`undefined`) or bound to the empty string.  The
guarded body is a total lookup, so the `catch` arm is unreachable in the
model and `get` always succeeds. -/
def EnvironmentVariables.get (self : EnvironmentVariables) (t : EnvTable)
    (key : String) (defaultValue : Option String) :
    Except String (Option String) :=
  let envKey := namespacedKey self key
  Except.ok (match t.lookup envKey with
    | some v => if v = "" then defaultValue else some v
    | none => defaultValue)

/-- `getString(key, defaultValue = undefined)`:
```js
const value = this.get(key)
return value !== undefined ? value.toString() : defaultValue
```
`value` is always a string when defined, so `toString()` is the identity. -/
def EnvironmentVariables.getString (self : EnvironmentVariables)
    (t : EnvTable) (key : String) (defaultValue : Option String) :
    Except String (Option String) := do
  let value ← self.get t key none
  return (match value with
    | some v => some v
    | none => defaultValue)

/-- `getBoolean(key, defaultValue = undefined)`:
```js
const value = this.getString(key)
return value !== undefined ? value.toLowerCase() === "true" : defaultValue
``` -/
def EnvironmentVariables.getBoolean (self : EnvironmentVariables)
    (t : EnvTable) (key : String) (defaultValue : Option Bool) :
    Except String (Option Bool) := do
  let value ← self.getString t key none
  return (match value with
    | some v => some (jsToLower v == "true")
    | none => defaultValue)

/-- JavaScript `String.prototype.split(separator)` for a string separator:
with the empty separator the string splits into its individual characters;
otherwise it splits at each leftmost occurrence of the separator.
`splitGo` scans for the leftmost occurrence; the fuel (initialised to
`s.length + 1`) dominates the number of separator occurrences, so the
fuel-exhausted arm is unreachable. -/
def splitFirst (sep : List Char) (s : List Char) :
    Option (List Char × List Char) :=
  match s with
  | [] => none
  | c :: rest =>
    if sep.isPrefixOf s then some ([], s.drop sep.length)
    else (splitFirst sep rest).map (fun p => (c :: p.1, p.2))

def splitGo (fuel : Nat) (sep : List Char) (s : List Char) :
    List (List Char) :=
  match fuel with
  | 0 => [s]
  | fuel + 1 =>
    match splitFirst sep s with
    | none => [s]
    | some (before, after) => before :: splitGo fuel sep after

def jsSplit (s sep : String) : List String :=
  if sep = "" then s.data.map (fun c => String.mk [c])
  else (splitGo (s.data.length + 1) sep.data s.data).map String.mk

/-- `getArray(key, separator = ",", defaultValue = undefined)`:
```js
const value = this.getString(key)
return value !== undefined ? value.split(separator) : defaultValue
```
A `none` separator models an omitted argument, for which the source's
default parameter supplies `","`. -/
def EnvironmentVariables.getArray (self : EnvironmentVariables)
    (t : EnvTable) (key : String) (separator : Option String)
    (defaultValue : Option (List String)) :
    Except String (Option (List String)) := do
  let sep := separator.getD ","
  let value ← self.getString t key none
  return (match value with
    | some v => some (jsSplit v sep)
    | none => defaultValue)

/-- A JavaScript number as produced by `parseFloat`: not-a-number, a signed
infinity, or a finite value (modelled exactly as a rational; every claim
below involves only values that binary64 represents exactly). -/
inductive JSNum where
  | nan : JSNum
  | posInf : JSNum
  | negInf : JSNum
  | num : ℚ → JSNum
deriving DecidableEq

/-- The `StrWhiteSpaceChar`s that `parseFloat` skips at the front of its
input (the common ASCII ones plus NBSP and the BOM). -/
def jsStrWhite (c : Char) : Bool :=
  c == ' ' || c == '\t' || c == '\n' || c == '\r' || c == '\x0b' ||
    c == '\x0c' || c == '\u00A0' || c == '\uFEFF'

/-- The numeric value of a list of decimal digits, most significant first. -/
def digitsToNat (ds : List Char) : Nat :=
  ds.foldl (fun n c => 10 * n + (c.toNat - '0'.toNat)) 0

/-- The exponent part of a `StrDecimalLiteral`, parsed from the characters
after the `e`/`E`: an optional sign and then decimal digits.  Returns
`none` when no digit follows, in which case the longest valid prefix of
the input stops before the `e` and the exponent is ignored. -/
def parseFloatExp (cs : List Char) : Option Int :=
  match cs with
  | '+' :: r =>
    if r.takeWhile Char.isDigit = [] then none
    else some (digitsToNat (r.takeWhile Char.isDigit) : Int)
  | '-' :: r =>
    if r.takeWhile Char.isDigit = [] then none
    else some (-(digitsToNat (r.takeWhile Char.isDigit) : Int))
  | r =>
    if r.takeWhile Char.isDigit = [] then none
    else some (digitsToNat (r.takeWhile Char.isDigit) : Int)

/-- The exact value of the decimal literal `[-] mant-digits`, where the
last `fracLen` mantissa digits sit after the dot and `exp` is the
exponent: `(-1)^neg * mant * 10 ^ (exp - fracLen)`, built with `mkRat` so
that it evaluates by kernel reduction. -/
def decValue (neg : Bool) (mant : Nat) (fracLen : Nat) (exp : Int) : ℚ :=
  let e : Int := exp - (fracLen : Int)
  let m : Int := if neg then -(mant : Int) else (mant : Int)
  if 0 ≤ e then ((m * (10 : Int) ^ e.toNat : Int) : ℚ)
  else mkRat m ((10 : Nat) ^ (-e).toNat)

/-- The unsigned part of a `StrDecimalLiteral` at the front of `cs` (the
sign has already been consumed and is passed as `neg`): `Infinity`, or
`digits [. digits] [ExponentPart]` where at least one digit must appear
on one side of the dot.  Returns the value of the longest valid prefix,
or `none` when no prefix is valid. -/
def parseFloatUnsigned (neg : Bool) (cs : List Char) : Option JSNum :=
  if "Infinity".data.isPrefixOf cs then
    some (if neg then JSNum.negInf else JSNum.posInf)
  else
    let intDigits := cs.takeWhile Char.isDigit
    let rest1 := cs.dropWhile Char.isDigit
    let fracDigits := match rest1 with
      | '.' :: r => r.takeWhile Char.isDigit
      | _ => []
    let rest2 := match rest1 with
      | '.' :: r => r.dropWhile Char.isDigit
      | _ => rest1
    if intDigits = [] ∧ fracDigits = [] then none
    else
      let exp : Int := match rest2 with
        | c :: r =>
          if c = 'e' ∨ c = 'E' then (parseFloatExp r).getD 0 else 0
        | [] => 0
      some (JSNum.num (decValue neg (digitsToNat (intDigits ++ fracDigits))
        fracDigits.length exp))

/-- ECMAScript `parseFloat(string)`: skip leading whitespace, then take the
longest prefix that is a valid `StrDecimalLiteral` (optional sign, then
`Infinity` or a decimal literal); `NaN` when there is none.  Trailing
characters after the valid prefix are ignored. -/
def parseFloat (s : String) : JSNum :=
  let cs := s.data.dropWhile jsStrWhite
  match cs with
  | '+' :: rest => (parseFloatUnsigned false rest).getD JSNum.nan
  | '-' :: rest => (parseFloatUnsigned true rest).getD JSNum.nan
  | _ => (parseFloatUnsigned false cs).getD JSNum.nan

/-- `getNumber(key, defaultValue = undefined)`:
```js
const value = this.getString(key)
return value !== undefined ? parseFloat(value) : defaultValue
``` -/
def EnvironmentVariables.getNumber (self : EnvironmentVariables)
    (t : EnvTable) (key : String) (defaultValue : Option JSNum) :
    Except String (Option JSNum) := do
  let value ← self.getString t key none
  return (match value with
    | some v => some (parseFloat v)
    | none => defaultValue)

/-- A JSON value as produced by `JSON.parse`: `null`, a boolean, a number
(exact rational in place of binary64), a string, an array, or an object
(an ordered list of key/value fields). -/
inductive JSValue where
  | null : JSValue
  | bool : Bool → JSValue
  | num : ℚ → JSValue
  | str : String → JSValue
  | arr : List JSValue → JSValue
  | obj : List (String × JSValue) → JSValue

/-- The four JSON whitespace characters. -/
def jsonWsChar (c : Char) : Bool :=
  c == ' ' || c == '\t' || c == '\n' || c == '\r'

def skipJsonWs (cs : List Char) : List Char :=
  cs.dropWhile (fun c => jsonWsChar c)

/-- The value of a hexadecimal digit, for `\uXXXX` escapes. -/
def hexDigitVal (c : Char) : Option Nat :=
  if '0' ≤ c ∧ c ≤ '9' then some (c.toNat - '0'.toNat)
  else if 'a' ≤ c ∧ c ≤ 'f' then some (c.toNat - 'a'.toNat + 10)
  else if 'A' ≤ c ∧ c ≤ 'F' then some (c.toNat - 'A'.toNat + 10)
  else none

/-- The body of a JSON string, after the opening quote: the decoded
characters and the input remaining after the closing quote.  Raw control
characters are rejected; the escapes are the eight single-character ones
plus `\uXXXX` (decoded by code point; surrogate pairing is not modelled,
no claim depends on it). -/
def parseJStringBody : List Char → Option (List Char × List Char)
  | [] => none
  | '"' :: rest => some ([], rest)
  | '\\' :: 'u' :: a :: b :: c :: d :: rest => do
    let ha ← hexDigitVal a
    let hb ← hexDigitVal b
    let hc ← hexDigitVal c
    let hd ← hexDigitVal d
    let (v, r) ← parseJStringBody rest
    some (Char.ofNat (((ha * 16 + hb) * 16 + hc) * 16 + hd) :: v, r)
  | '\\' :: e :: rest => do
    let c ← (match e with
      | '"' => some '"'
      | '\\' => some '\\'
      | '/' => some '/'
      | 'b' => some '\x08'
      | 'f' => some '\x0c'
      | 'n' => some '\n'
      | 'r' => some '\r'
      | 't' => some '\t'
      | _ => none)
    let (v, r) ← parseJStringBody rest
    some (c :: v, r)
  | c :: rest =>
    if c.toNat < 0x20 then none
    else do
      let (v, r) ← parseJStringBody rest
      some (c :: v, r)

/-- A JSON number at the front of `cs`: optional `-`, an integer part with
no leading zero, an optional fraction, an optional exponent.  Returns its
exact value and the remaining input. -/
def parseJNumber (cs : List Char) : Option (ℚ × List Char) :=
  let (neg, cs1) := match cs with
    | '-' :: r => (true, r)
    | _ => (false, cs)
  let intDigits := cs1.takeWhile Char.isDigit
  let rest1 := cs1.dropWhile Char.isDigit
  if intDigits = [] then none
  else if intDigits.head? = some '0' ∧ intDigits.length > 1 then none
  else
    let fracPart : Option (List Char × List Char) := match rest1 with
      | '.' :: r =>
        if r.takeWhile Char.isDigit = [] then none
        else some (r.takeWhile Char.isDigit, r.dropWhile Char.isDigit)
      | _ => some ([], rest1)
    match fracPart with
    | none => none
    | some (fracDigits, rest2) =>
      let expPart : Option (Int × List Char) := match rest2 with
        | c :: r =>
          if c = 'e' ∨ c = 'E' then
            match parseFloatExp r with
            | some e =>
              some (e, match r with
                | '+' :: r2 => r2.dropWhile Char.isDigit
                | '-' :: r2 => r2.dropWhile Char.isDigit
                | _ => r.dropWhile Char.isDigit)
            | none => none
          else some (0, rest2)
        | [] => some (0, rest2)
      match expPart with
      | none => none
      | some (exp, rest3) =>
        some (decValue neg (digitsToNat (intDigits ++ fracDigits))
          fracDigits.length exp, rest3)

/-- The three JSON parsers — for a value, for the elements of a non-empty
array (after the `[`), and for the fields of a non-empty object (after the
`{`) — built by structural recursion on a fuel that bounds the nesting
depth; each returns the parse and the remaining input.  Two units of fuel
always span at least one consumed character, so the initial fuel
`2 * length + 2` makes the fuel-exhausted arm unreachable. -/
def parseJ (fuel : Nat) :
    (List Char → Option (JSValue × List Char)) ×
    (List Char → Option (List JSValue × List Char)) ×
    (List Char → Option (List (String × JSValue) × List Char)) :=
  match fuel with
  | 0 => (fun _ => none, fun _ => none, fun _ => none)
  | fuel + 1 =>
    let p := parseJ fuel
    (fun cs =>
      match skipJsonWs cs with
      | 'n' :: r =>
        if ['u', 'l', 'l'].isPrefixOf r then some (JSValue.null, r.drop 3)
        else none
      | 't' :: r =>
        if ['r', 'u', 'e'].isPrefixOf r then some (JSValue.bool true, r.drop 3)
        else none
      | 'f' :: r =>
        if ['a', 'l', 's', 'e'].isPrefixOf r then
          some (JSValue.bool false, r.drop 4)
        else none
      | '"' :: r =>
        (parseJStringBody r).map (fun q => (JSValue.str (String.mk q.1), q.2))
      | '[' :: r =>
        (match skipJsonWs r with
          | ']' :: rr => some (JSValue.arr [], rr)
          | _ => (p.2.1 r).map (fun q => (JSValue.arr q.1, q.2)))
      | '{' :: r =>
        (match skipJsonWs r with
          | '}' :: rr => some (JSValue.obj [], rr)
          | _ => (p.2.2 r).map (fun q => (JSValue.obj q.1, q.2)))
      | other => (parseJNumber other).map (fun q => (JSValue.num q.1, q.2)),
     fun cs => do
      let (v, rest) ← p.1 cs
      match skipJsonWs rest with
      | ',' :: r => do
        let (vs, rest2) ← p.2.1 r
        some (v :: vs, rest2)
      | ']' :: r => some ([v], r)
      | _ => none,
     fun cs => do
      match skipJsonWs cs with
      | '"' :: r => do
        let (key, rest) ← parseJStringBody r
        match skipJsonWs rest with
        | ':' :: r2 => do
          let (v, rest2) ← p.1 r2
          match skipJsonWs rest2 with
          | ',' :: r3 => do
            let (fs, rest3) ← p.2.2 r3
            some ((String.mk key, v) :: fs, rest3)
          | '}' :: r3 => some ([(String.mk key, v)], r3)
          | _ => none
        | _ => none
      | _ => none)

/-- `JSON.parse(text)`: parse one JSON value and require that only
whitespace remains; a failed parse is a thrown `SyntaxError`. -/
def jsonParse (s : String) : Except String JSValue :=
  match (parseJ (2 * s.data.length + 2)).1 s.data with
  | some (v, rest) =>
    if skipJsonWs rest = [] then Except.ok v
    else Except.error "Unexpected token in JSON"
  | none => Except.error "Unexpected token in JSON"

/-- `getObject(key, defaultValue = undefined)`:
```js
const value = this.getString(key)
try { return value !== undefined ? JSON.parse(value) : defaultValue }
catch (err) { console.error(...); return defaultValue }
```
The `catch` turns a `JSON.parse` failure into the default. -/
def EnvironmentVariables.getObject (self : EnvironmentVariables)
    (t : EnvTable) (key : String) (defaultValue : Option JSValue) :
    Except String (Option JSValue) := do
  let value ← self.getString t key none
  return (match value with
    | some v =>
      match jsonParse v with
      | Except.ok o => some o
      | Except.error _ => defaultValue
    | none => defaultValue)

/-- The options bag of `getOrThrow`; `throwError : none` models an options
object without a `throwError` field (the field reads as `undefined`, which
is falsy). -/
structure GetOrThrowOptions where
  «throwError» : Option Bool
deriving DecidableEq

/-- `getOrThrow(propertyPath, options = { throwError: true })`:
```js
const value = this.get(propertyPath)
if (value === undefined && options.throwError) {
  throw new Error(`Environment variable \x7b...\x7d not found.`)
}
return value
```
A `none` options argument models an omitted argument, for which the
source's default parameter supplies `{ throwError: true }`; the truthiness
test on `options.throwError` holds exactly for a present `true` field. -/
def EnvironmentVariables.getOrThrow (self : EnvironmentVariables)
    (t : EnvTable) (propertyPath : String)
    (options : Option GetOrThrowOptions) : Except String (Option String) := do
  let opts := options.getD { «throwError» := some true }
  let value ← self.get t propertyPath none
  if value = none ∧ opts.«throwError» = some true then
    Except.error ("Environment variable " ++ "\x27" ++ propertyPath ++
      "\x27 not found.")
  else
    return value

/-! ## Characterisation lemmas shared by the claim proofs -/

/-- `get` always succeeds, with the looked-up value when it is present and
non-empty and the default otherwise. -/
lemma get_eq (self : EnvironmentVariables) (t : EnvTable) (key : String)
    (d : Option String) :
    self.get t key d = Except.ok (match t.lookup (namespacedKey self key) with
      | some v => if v = "" then d else some v
      | none => d) := rfl

/-- `getString` agrees with `get`: the found value is already a string, so
`toString()` changes nothing. -/
lemma getString_eq (self : EnvironmentVariables) (t : EnvTable) (key : String)
    (d : Option String) :
    self.getString t key d =
      Except.ok (match t.lookup (namespacedKey self key) with
        | some v => if v = "" then d else some v
        | none => d) := by
  unfold EnvironmentVariables.getString
  rw [get_eq]
  cases h : t.lookup (namespacedKey self key) with
  | none => rfl
  | some v =>
    by_cases hv : v = "" <;> simp [hv]

/-- `getBoolean` reduces to a lowercased-equality test on the raw table
entry. -/
lemma getBoolean_eq (self : EnvironmentVariables) (t : EnvTable)
    (key : String) (d : Option Bool) :
    self.getBoolean t key d =
      Except.ok (match t.lookup (namespacedKey self key) with
        | some v => if v = "" then d else some (jsToLower v == "true")
        | none => d) := by
  unfold EnvironmentVariables.getBoolean
  rw [getString_eq]
  cases h : t.lookup (namespacedKey self key) with
  | none => rfl
  | some v => by_cases hv : v = "" <;> simp [hv]

/-- `getNumber` reduces to `parseFloat` on the raw table entry. -/
lemma getNumber_eq (self : EnvironmentVariables) (t : EnvTable)
    (key : String) (d : Option JSNum) :
    self.getNumber t key d =
      Except.ok (match t.lookup (namespacedKey self key) with
        | some v => if v = "" then d else some (parseFloat v)
        | none => d) := by
  unfold EnvironmentVariables.getNumber
  rw [getString_eq]
  cases h : t.lookup (namespacedKey self key) with
  | none => rfl
  | some v => by_cases hv : v = "" <;> simp [hv]

/-- `getArray` reduces to `jsSplit` on the raw table entry, with `","` as
the separator when the argument is omitted. -/
lemma getArray_eq (self : EnvironmentVariables) (t : EnvTable)
    (key : String) (sep : Option String) (d : Option (List String)) :
    self.getArray t key sep d =
      Except.ok (match t.lookup (namespacedKey self key) with
        | some v => if v = "" then d else some (jsSplit v (sep.getD ","))
        | none => d) := by
  unfold EnvironmentVariables.getArray
  rw [getString_eq]
  cases h : t.lookup (namespacedKey self key) with
  | none => rfl
  | some v => by_cases hv : v = "" <;> simp [hv]

/-- `getObject` reduces to `jsonParse` on the raw table entry, with the
parse failure caught. -/
lemma getObject_eq (self : EnvironmentVariables) (t : EnvTable)
    (key : String) (d : Option JSValue) :
    self.getObject t key d =
      Except.ok (match t.lookup (namespacedKey self key) with
        | some v =>
          if v = "" then d
          else (match jsonParse v with
            | Except.ok o => some o
            | Except.error _ => d)
        | none => d) := by
  unfold EnvironmentVariables.getObject
  rw [getString_eq]
  cases h : t.lookup (namespacedKey self key) with
  | none => rfl
  | some v => by_cases hv : v = "" <;> simp [hv]

/-- `splitGo` never returns the empty list: every arm produces a cons. -/
lemma splitGo_ne_nil (fuel : Nat) (sep s : List Char) :
    splitGo fuel sep s ≠ [] := by
  cases fuel with
  | zero => simp [splitGo]
  | succ n =>
    cases h : splitFirst sep s with
    | none => simp [splitGo, h]
    | some p => simp [splitGo, h]

/-- Splitting a non-empty string yields at least one element, whatever the
separator. -/
lemma jsSplit_ne_nil (s sep : String) (hs : s ≠ "") : jsSplit s sep ≠ [] := by
  have hd : s.data ≠ [] := by
    intro h
    apply hs
    cases s with
    | mk l =>
      simp only at h
      rw [h]
  unfold jsSplit
  by_cases hsep : sep = ""
  · simp [hsep, hd]
  · simp only [if_neg hsep]
    intro h
    exact splitGo_ne_nil _ _ _ (List.map_eq_nil_iff.mp h)

/-! ## The claims -/

/-- C1: for every key and every default value, `get(key, defaultValue)`
returns the string stored in the process-wide variable table under the
namespaced key when that string is present and non-empty, and returns
`defaultValue` otherwise; in particular an empty stored string triggers
the default, and with the variable unset and no default supplied the
result is `undefined` (`none`, an instance of the default arm with the
default absent). -/
theorem get_contract (self : EnvironmentVariables) (t : EnvTable)
    (key : String) (d : Option String) :
    (∀ v, t.lookup (namespacedKey self key) = some v → v ≠ "" →
      self.get t key d = Except.ok (some v)) ∧
    (t.lookup (namespacedKey self key) = some "" →
      self.get t key d = Except.ok d) ∧
    (t.lookup (namespacedKey self key) = none →
      self.get t key d = Except.ok d) := by
  refine ⟨fun v hv hne => ?_, fun h => ?_, fun h => ?_⟩ <;> rw [get_eq]
  · simp [hv, hne]
  · simp [h]
  · simp [h]

theorem get_contract_witness :
    EnvironmentVariables.get ⟨"development"⟩ ⟨[("DEVELOPMENT_X", "val")]⟩
        "X" (some "fallback") = Except.ok (some "val") ∧
    EnvironmentVariables.get ⟨"development"⟩ ⟨[("DEVELOPMENT_X", "")]⟩
        "X" (some "fallback") = Except.ok (some "fallback") ∧
    EnvironmentVariables.get ⟨"development"⟩ ⟨[]⟩ "X" none =
      Except.ok none :=
  ⟨(get_contract ⟨"development"⟩ ⟨[("DEVELOPMENT_X", "val")]⟩ "X"
      (some "fallback")).1 "val" (by decide) (by decide),
   (get_contract ⟨"development"⟩ ⟨[("DEVELOPMENT_X", "")]⟩ "X"
      (some "fallback")).2.1 (by decide),
   (get_contract ⟨"development"⟩ ⟨[]⟩ "X" none).2.2 (by decide)⟩

/-- C2: the key used to query the process-wide variable table is exactly
`UPPERCASE(env) ++ "_" ++ UPPERCASE(key)` — `namespacedKey` equals that
concatenation, and `get` reads the table only through that key (two tables
agreeing on it are indistinguishable to `get`); being a Lean function of
`self` and `key`, the namespacing is pure and total. -/
theorem namespacedKey_convention (self : EnvironmentVariables)
    (key : String) (d : Option String) :
    namespacedKey self key = jsToUpper self.env ++ "_" ++ jsToUpper key ∧
    ∀ t₁ t₂ : EnvTable,
      t₁.lookup (jsToUpper self.env ++ "_" ++ jsToUpper key) =
        t₂.lookup (jsToUpper self.env ++ "_" ++ jsToUpper key) →
      self.get t₁ key d = self.get t₂ key d := by
  refine ⟨rfl, fun t₁ t₂ h => ?_⟩
  rw [get_eq, get_eq]
  unfold namespacedKey
  rw [h]

theorem namespacedKey_convention_witness :
    namespacedKey ⟨"development"⟩ "port" = "DEVELOPMENT_PORT" ∧
    EnvironmentVariables.get ⟨"development"⟩
        ⟨[("DEVELOPMENT_PORT", "3000"), ("NOISE", "a")]⟩ "port" none =
      EnvironmentVariables.get ⟨"development"⟩
        ⟨[("OTHER", "b"), ("DEVELOPMENT_PORT", "3000")]⟩ "port" none :=
  ⟨((namespacedKey_convention ⟨"development"⟩ "port" none).1).trans
      (by decide),
   (namespacedKey_convention ⟨"development"⟩ "port" none).2
      ⟨[("DEVELOPMENT_PORT", "3000"), ("NOISE", "a")]⟩
      ⟨[("OTHER", "b"), ("DEVELOPMENT_PORT", "3000")]⟩ (by decide)⟩

/-- C3: with default options, `getOrThrow(key)` throws an error whose
message names the requested key exactly when `get(key)` yields
`undefined` (which covers both an unset variable and one set to the empty
string, since `get` treats the empty string as absent), and otherwise
returns the value `get` produced, which is necessarily non-empty. -/
theorem getOrThrow_contract (self : EnvironmentVariables) (t : EnvTable)
    (key : String) :
    (self.get t key none = Except.ok none →
      self.getOrThrow t key none = Except.error
        ("Environment variable " ++ "\x27" ++ key ++ "\x27 not found.")) ∧
    (∀ v, self.get t key none = Except.ok (some v) →
      self.getOrThrow t key none = Except.ok (some v) ∧ v ≠ "") := by
  constructor
  · intro h
    unfold EnvironmentVariables.getOrThrow
    rw [h]
    rfl
  · intro v h
    refine ⟨?_, ?_⟩
    · unfold EnvironmentVariables.getOrThrow
      rw [h]
      rfl
    · rw [get_eq] at h
      cases hl : t.lookup (namespacedKey self key) with
      | none => rw [hl] at h; simp at h
      | some w =>
        rw [hl] at h
        by_cases hw : w = "" <;> simp [hw] at h
        exact h ▸ hw

theorem getOrThrow_contract_witness :
    EnvironmentVariables.getOrThrow ⟨"development"⟩ ⟨[]⟩ "REQUIRED" none =
      Except.error "Environment variable \x27REQUIRED\x27 not found." ∧
    EnvironmentVariables.getOrThrow ⟨"development"⟩
        ⟨[("DEVELOPMENT_REQUIRED", "")]⟩ "REQUIRED" none =
      Except.error "Environment variable \x27REQUIRED\x27 not found." ∧
    EnvironmentVariables.getOrThrow ⟨"development"⟩
        ⟨[("DEVELOPMENT_REQUIRED", "v")]⟩ "REQUIRED" none =
      Except.ok (some "v") :=
  ⟨(getOrThrow_contract ⟨"development"⟩ ⟨[]⟩ "REQUIRED").1 rfl,
   (getOrThrow_contract ⟨"development"⟩
      ⟨[("DEVELOPMENT_REQUIRED", "")]⟩ "REQUIRED").1 rfl,
   ((getOrThrow_contract ⟨"development"⟩
      ⟨[("DEVELOPMENT_REQUIRED", "v")]⟩ "REQUIRED").2 "v" rfl).1⟩

/-- C4: for every key, default and table content, none of the typed
getters (`get`, `getString`, `getBoolean`, `getNumber`, `getArray`,
`getObject`) ever propagates an exception — each always returns an `ok`
result; `getOrThrow` is the only operation that can fail, and it does fail
on some table. -/
theorem typed_getters_never_throw (self : EnvironmentVariables)
    (t : EnvTable) (key : String) :
    (∀ d, ∃ r, self.get t key d = Except.ok r) ∧
    (∀ d, ∃ r, self.getString t key d = Except.ok r) ∧
    (∀ d, ∃ r, self.getBoolean t key d = Except.ok r) ∧
    (∀ d, ∃ r, self.getNumber t key d = Except.ok r) ∧
    (∀ sep d, ∃ r, self.getArray t key sep d = Except.ok r) ∧
    (∀ d, ∃ r, self.getObject t key d = Except.ok r) ∧
    (∃ t₀ : EnvTable, ∀ r, self.getOrThrow t₀ key none ≠ Except.ok r) :=
  ⟨fun d => ⟨_, get_eq self t key d⟩,
   fun d => ⟨_, getString_eq self t key d⟩,
   fun d => ⟨_, getBoolean_eq self t key d⟩,
   fun d => ⟨_, getNumber_eq self t key d⟩,
   fun sep d => ⟨_, getArray_eq self t key sep d⟩,
   fun d => ⟨_, getObject_eq self t key d⟩,
   ⟨⟨[]⟩, fun r h => by
     rw [show self.getOrThrow ⟨[]⟩ key none = Except.error
         ("Environment variable " ++ "\x27" ++ key ++ "\x27 not found.")
       from rfl] at h
     exact Except.noConfusion h⟩⟩

/-- C5: `getBoolean(key, defaultValue)` returns `true` iff a value is
found and its lowercased form is the literal `"true"`; any other found
string yields `false`; with no value found (unset or empty) it returns
`defaultValue`. -/
theorem getBoolean_contract (self : EnvironmentVariables) (t : EnvTable)
    (key : String) (d : Option Bool) :
    (∀ v, t.lookup (namespacedKey self key) = some v → v ≠ "" →
      (self.getBoolean t key d = Except.ok (some true) ↔
        jsToLower v = "true") ∧
      (jsToLower v ≠ "true" →
        self.getBoolean t key d = Except.ok (some false))) ∧
    ((t.lookup (namespacedKey self key) = none ∨
      t.lookup (namespacedKey self key) = some "") →
      self.getBoolean t key d = Except.ok d) := by
  constructor
  · intro v hv hne
    constructor
    · rw [getBoolean_eq, hv]
      simp [hne]
    · intro hlow
      rw [getBoolean_eq, hv]
      simp [hne, hlow]
  · rintro (h | h) <;> rw [getBoolean_eq, h] <;> simp

theorem getBoolean_contract_witness :
    EnvironmentVariables.getBoolean ⟨"development"⟩
        ⟨[("DEVELOPMENT_FLAG", "TrUe")]⟩ "FLAG" none =
      Except.ok (some true) ∧
    EnvironmentVariables.getBoolean ⟨"development"⟩
        ⟨[("DEVELOPMENT_FLAG", "False")]⟩ "FLAG" none =
      Except.ok (some false) ∧
    EnvironmentVariables.getBoolean ⟨"development"⟩
        ⟨[("DEVELOPMENT_FLAG", "1")]⟩ "FLAG" none =
      Except.ok (some false) ∧
    EnvironmentVariables.getBoolean ⟨"development"⟩
        ⟨[("DEVELOPMENT_FLAG", "yes")]⟩ "FLAG" none =
      Except.ok (some false) ∧
    EnvironmentVariables.getBoolean ⟨"development"⟩ ⟨[]⟩ "FLAG"
        (some true) = Except.ok (some true) :=
  ⟨((getBoolean_contract ⟨"development"⟩ ⟨[("DEVELOPMENT_FLAG", "TrUe")]⟩
      "FLAG" none).1 "TrUe" (by decide) (by decide)).1.mpr (by decide),
   ((getBoolean_contract ⟨"development"⟩ ⟨[("DEVELOPMENT_FLAG", "False")]⟩
      "FLAG" none).1 "False" (by decide) (by decide)).2 (by decide),
   ((getBoolean_contract ⟨"development"⟩ ⟨[("DEVELOPMENT_FLAG", "1")]⟩
      "FLAG" none).1 "1" (by decide) (by decide)).2 (by decide),
   ((getBoolean_contract ⟨"development"⟩ ⟨[("DEVELOPMENT_FLAG", "yes")]⟩
      "FLAG" none).1 "yes" (by decide) (by decide)).2 (by decide),
   (getBoolean_contract ⟨"development"⟩ ⟨[]⟩ "FLAG" (some true)).2
      (Or.inl (by decide))⟩

/-- C6: `getNumber(key, defaultValue)` returns `defaultValue` when no
value is found, and otherwise applies `parseFloat` to the found string:
trailing non-numeric characters after a valid numeric prefix are ignored,
a fully non-numeric string yields NaN rather than the default or an
error, and with environment `"development"` and `DEVELOPMENT_PORT` set to
`"3000"`, `getNumber("PORT")` returns 3000. -/
theorem getNumber_contract :
    (∀ (self : EnvironmentVariables) (t : EnvTable) (key : String)
        (d : Option JSNum),
      (t.lookup (namespacedKey self key) = none ∨
       t.lookup (namespacedKey self key) = some "") →
      self.getNumber t key d = Except.ok d) ∧
    (∀ (self : EnvironmentVariables) (t : EnvTable) (key : String)
        (d : Option JSNum) (v : String),
      t.lookup (namespacedKey self key) = some v → v ≠ "" →
      self.getNumber t key d = Except.ok (some (parseFloat v))) ∧
    parseFloat "3000px" = JSNum.num 3000 ∧
    parseFloat "12.5e2moretext" = JSNum.num 1250 ∧
    parseFloat "notanumber" = JSNum.nan ∧
    (∀ (self : EnvironmentVariables) (t : EnvTable) (key : String)
        (d v : String) (hd : parseFloat d ≠ JSNum.nan),
      t.lookup (namespacedKey self key) = some v → v ≠ "" →
      parseFloat v = JSNum.nan →
      self.getNumber t key (some (parseFloat d)) =
        Except.ok (some JSNum.nan)) ∧
    (∀ t : EnvTable, t.lookup "DEVELOPMENT_PORT" = some "3000" →
      EnvironmentVariables.getNumber ⟨"development"⟩ t "PORT" none =
        Except.ok (some (JSNum.num 3000))) := by
  refine ⟨?_, ?_, by decide, by decide, by decide, ?_, ?_⟩
  · rintro self t key d (h | h) <;> rw [getNumber_eq, h] <;> simp
  · intro self t key d v hv hne
    rw [getNumber_eq, hv]
    simp [hne]
  · intro self t key d v _ hv hne hnan
    rw [getNumber_eq, hv]
    simp [hne, hnan]
  · intro t h
    have hk : namespacedKey ⟨"development"⟩ "PORT" = "DEVELOPMENT_PORT" :=
      by decide
    rw [getNumber_eq, hk, h]
    have : parseFloat "3000" = JSNum.num 3000 := by decide
    simp [this]

theorem getNumber_contract_witness :
    EnvironmentVariables.getNumber ⟨"development"⟩
        ⟨[("DEVELOPMENT_PORT", "3000")]⟩ "PORT" none =
      Except.ok (some (JSNum.num 3000)) ∧
    EnvironmentVariables.getNumber ⟨"development"⟩
        ⟨[("DEVELOPMENT_N", "notanumber")]⟩ "N" (some (JSNum.num 7)) =
      Except.ok (some JSNum.nan) ∧
    EnvironmentVariables.getNumber ⟨"development"⟩ ⟨[]⟩ "PORT"
        (some (JSNum.num 8080)) = Except.ok (some (JSNum.num 8080)) :=
  ⟨getNumber_contract.2.2.2.2.2.2 ⟨[("DEVELOPMENT_PORT", "3000")]⟩
      (by decide),
   getNumber_contract.2.2.2.2.2.1 ⟨"development"⟩
      ⟨[("DEVELOPMENT_N", "notanumber")]⟩ "N" "7" "notanumber"
      (by decide) (by decide) (by decide) (by decide),
   getNumber_contract.1 ⟨"development"⟩ ⟨[]⟩ "PORT"
      (some (JSNum.num 8080)) (Or.inl (by decide))⟩

/-- C7: `getArray(key, separator, defaultValue)` returns the ordered list
of substrings of the found value split on the separator (for example
`"a;b;c"` on `";"` gives `["a","b","c"]`), returns `defaultValue` when no
value is found, and the separator defaults to `","` when omitted. -/
theorem getArray_contract :
    (∀ (self : EnvironmentVariables) (t : EnvTable) (key sep : String)
        (d : Option (List String)) (v : String),
      t.lookup (namespacedKey self key) = some v → v ≠ "" →
      self.getArray t key (some sep) d =
        Except.ok (some (jsSplit v sep))) ∧
    (∀ (self : EnvironmentVariables) (t : EnvTable) (key : String)
        (sep : Option String) (d : Option (List String)),
      (t.lookup (namespacedKey self key) = none ∨
       t.lookup (namespacedKey self key) = some "") →
      self.getArray t key sep d = Except.ok d) ∧
    jsSplit "a;b;c" ";" = ["a", "b", "c"] ∧
    (∀ (self : EnvironmentVariables) (t : EnvTable) (key : String)
        (d : Option (List String)),
      self.getArray t key none d = self.getArray t key (some ",") d) := by
  refine ⟨?_, ?_, by decide, ?_⟩
  · intro self t key sep d v hv hne
    rw [getArray_eq, hv]
    simp [hne]
  · rintro self t key sep d (h | h) <;> rw [getArray_eq, h] <;> simp
  · intro self t key d
    rw [getArray_eq, getArray_eq]
    rfl

theorem getArray_contract_witness :
    EnvironmentVariables.getArray ⟨"development"⟩
        ⟨[("DEVELOPMENT_LIST", "a;b;c")]⟩ "LIST" (some ";") (some []) =
      Except.ok (some ["a", "b", "c"]) ∧
    EnvironmentVariables.getArray ⟨"development"⟩ ⟨[]⟩ "LIST" (some ";")
        (some []) = Except.ok (some []) ∧
    EnvironmentVariables.getArray ⟨"development"⟩
        ⟨[("DEVELOPMENT_LIST", "a,b")]⟩ "LIST" none none =
      EnvironmentVariables.getArray ⟨"development"⟩
        ⟨[("DEVELOPMENT_LIST", "a,b")]⟩ "LIST" (some ",") none :=
  ⟨((getArray_contract.1 ⟨"development"⟩ ⟨[("DEVELOPMENT_LIST", "a;b;c")]⟩
      "LIST" ";" (some []) "a;b;c" (by decide) (by decide)).trans
      (by rw [show jsSplit "a;b;c" ";" = ["a", "b", "c"] from by decide])),
   getArray_contract.2.1 ⟨"development"⟩ ⟨[]⟩ "LIST" (some ";") (some [])
      (Or.inl (by decide)),
   getArray_contract.2.2.2 ⟨"development"⟩
      ⟨[("DEVELOPMENT_LIST", "a,b")]⟩ "LIST" none⟩

/-- C8: `getObject(key, defaultValue)` parses a found value with
`JSON.parse` and returns the parsed structure; a malformed value (such as
`"{not valid json"`) makes the parse failure get caught and
`defaultValue` returned instead of an exception propagating; with no
value found it also returns `defaultValue`. -/
theorem getObject_contract :
    (∀ (self : EnvironmentVariables) (t : EnvTable) (key : String)
        (d : Option JSValue) (v : String) (o : JSValue),
      t.lookup (namespacedKey self key) = some v → v ≠ "" →
      jsonParse v = Except.ok o →
      self.getObject t key d = Except.ok (some o)) ∧
    (∀ (self : EnvironmentVariables) (t : EnvTable) (key : String)
        (d : Option JSValue) (v e : String),
      t.lookup (namespacedKey self key) = some v → v ≠ "" →
      jsonParse v = Except.error e →
      self.getObject t key d = Except.ok d) ∧
    jsonParse "\x7bnot valid json" =
      Except.error "Unexpected token in JSON" ∧
    (∀ (self : EnvironmentVariables) (t : EnvTable) (key : String)
        (d : Option JSValue),
      (t.lookup (namespacedKey self key) = none ∨
       t.lookup (namespacedKey self key) = some "") →
      self.getObject t key d = Except.ok d) := by
  refine ⟨?_, ?_, rfl, ?_⟩
  · intro self t key d v o hv hne hp
    rw [getObject_eq, hv]
    simp [hne, hp]
  · intro self t key d v e hv hne hp
    rw [getObject_eq, hv]
    simp [hne, hp]
  · rintro self t key d (h | h) <;> rw [getObject_eq, h] <;> simp

theorem getObject_contract_witness :
    EnvironmentVariables.getObject ⟨"development"⟩
        ⟨[("DEVELOPMENT_CFG", "\x7bnot valid json")]⟩ "CFG" none =
      Except.ok none ∧
    EnvironmentVariables.getObject ⟨"development"⟩
        ⟨[("DEVELOPMENT_CFG", "[1, true]")]⟩ "CFG" none =
      Except.ok (some (JSValue.arr [JSValue.num 1, JSValue.bool true])) ∧
    EnvironmentVariables.getObject ⟨"development"⟩ ⟨[]⟩ "CFG" none =
      Except.ok none :=
  ⟨getObject_contract.2.1 ⟨"development"⟩
      ⟨[("DEVELOPMENT_CFG", "\x7bnot valid json")]⟩ "CFG" none
      "\x7bnot valid json" "Unexpected token in JSON" (by decide)
      (by decide) rfl,
   getObject_contract.1 ⟨"development"⟩
      ⟨[("DEVELOPMENT_CFG", "[1, true]")]⟩ "CFG" none "[1, true]"
      (JSValue.arr [JSValue.num 1, JSValue.bool true]) (by decide)
      (by decide) rfl,
   getObject_contract.2.2.2 ⟨"development"⟩ ⟨[]⟩ "CFG" none
      (Or.inl (by decide))⟩

/-- C9: passing an explicit options object without a `throwError` field
(JS `getOrThrow(key, {})`) never throws: the field reads as `undefined`,
which is falsy, so the absent-value branch is skipped and the call returns
`undefined` when the variable is absent (unset or empty); the documented
`throwError: true` default applies only to an omitted options argument. -/
theorem getOrThrow_partial_options (self : EnvironmentVariables)
    (t : EnvTable) (key : String) :
    (∃ r, self.getOrThrow t key (some { «throwError» := none }) =
      Except.ok r) ∧
    (t.lookup (namespacedKey self key) = none →
      self.getOrThrow t key (some { «throwError» := none }) =
        Except.ok none) ∧
    (t.lookup (namespacedKey self key) = some "" →
      self.getOrThrow t key (some { «throwError» := none }) =
        Except.ok none) := by
  refine ⟨?_, fun h => ?_, fun h => ?_⟩
  · cases hl : t.lookup (namespacedKey self key) with
    | none =>
      refine ⟨none, ?_⟩
      unfold EnvironmentVariables.getOrThrow
      rw [get_eq, hl]
      rfl
    | some v =>
      by_cases hv : v = ""
      · refine ⟨none, ?_⟩
        unfold EnvironmentVariables.getOrThrow
        rw [get_eq, hl, hv]
        rfl
      · refine ⟨some v, ?_⟩
        unfold EnvironmentVariables.getOrThrow
        rw [get_eq, hl]
        simp [hv]
  · unfold EnvironmentVariables.getOrThrow
    rw [get_eq, h]
    rfl
  · unfold EnvironmentVariables.getOrThrow
    rw [get_eq, h]
    rfl

theorem getOrThrow_partial_options_witness :
    EnvironmentVariables.getOrThrow ⟨"development"⟩ ⟨[]⟩ "REQUIRED"
        (some { «throwError» := none }) = Except.ok none ∧
    EnvironmentVariables.getOrThrow ⟨"development"⟩
        ⟨[("DEVELOPMENT_REQUIRED", "")]⟩ "REQUIRED"
        (some { «throwError» := none }) = Except.ok none :=
  ⟨(getOrThrow_partial_options ⟨"development"⟩ ⟨[]⟩ "REQUIRED").2.1
      (by decide),
   (getOrThrow_partial_options ⟨"development"⟩
      ⟨[("DEVELOPMENT_REQUIRED", "")]⟩ "REQUIRED").2.2 (by decide)⟩

/-- C10: whenever `getArray` finds a value (the underlying variable is
present and non-empty), the returned list is non-empty — splitting a
non-empty string always yields at least one element — so an empty array
can only come from the supplied `defaultValue`. -/
theorem getArray_found_nonempty (self : EnvironmentVariables)
    (t : EnvTable) (key : String) (sep : Option String)
    (d : Option (List String)) (v : String)
    (h : t.lookup (namespacedKey self key) = some v) (hv : v ≠ "") :
    ∃ l, self.getArray t key sep d = Except.ok (some l) ∧ l ≠ [] := by
  refine ⟨jsSplit v (sep.getD ","), ?_, jsSplit_ne_nil v _ hv⟩
  rw [getArray_eq, h]
  simp [hv]

theorem getArray_found_nonempty_witness :
    ∃ l, EnvironmentVariables.getArray ⟨"development"⟩
        ⟨[("DEVELOPMENT_LIST", "solo")]⟩ "LIST" none (some []) =
      Except.ok (some l) ∧ l ≠ [] :=
  getArray_found_nonempty ⟨"development"⟩
    ⟨[("DEVELOPMENT_LIST", "solo")]⟩ "LIST" none (some []) "solo"
    (by decide) (by decide)

end ModuleConfig
